import Mathlib

/-!
# Bossman: a shallow embedding of `src/Bossman.js`

The scheduler class is embedded as pure functions over an explicit state
record.  Everything the class does to the outside world (a lock request, a
call into the middleware pipeline, an unlock, a `SET ... PX ... NX` command)
is recorded as an `Event`, in the order in which the JavaScript issues it.

External collaborators are not part of the repository:

* `humanInterval` is a parameter `String → Nat` (interval text to milliseconds);
* the outcome of `redlock.lock` is a parameter of the continuation that
  `doWork` installs with `.then`;
* `compose` (package `throwback`) and the key-value store are modelled from
  the specification, and are marked as such.
-/

namespace Bossman

/-! ## Strings -/

/-- `message.startsWith(searchString)`. -/
def startsWith (message searchString : String) : Bool :=
  searchString.data.isPrefixOf message.data

/-- `s.split(sep)` for a one-character separator, on the characters of `s`. -/
def split (sep : Char) : List Char → List (List Char)
  | [] => [[]]
  | c :: cs =>
    if c = sep then [] :: split sep cs
    else
      match split sep cs with
      | seg :: rest => (c :: seg) :: rest
      | [] => [[c]]

/-- `message.split(':').pop()`: the last piece of the message. -/
def jobNameOf (message : String) : String :=
  String.mk (((split ':' message.data).getLast?).getD [])

/-! ## Constants and configuration -/

/-- `const JOB_TTL = 2000`. -/
def JOB_TTL : Nat := 2000

/-- `const JOB_PREFIX = 'bossman:job'`. -/
def JOB_PREFIX : String := "bossman:job"

/-- A connection descriptor; only its `db` entry is read by the class. -/
structure Connection where
  db : Option Nat
  deriving DecidableEq, Repr

/-- The argument object of the constructor: `{ connection, prefix, ttl }`,
each entry possibly left out. -/
structure Options where
  connection : Option Connection := none
  pfx : Option String := none
  ttl : Option Nat := none
  deriving DecidableEq, Repr

/-! ## Job definitions and the middleware pipeline -/

/-- How a promise ends: resolved, rejected, or never settled. -/
inductive Outcome
  | resolved
  | rejected
  | pending
  deriving DecidableEq, Repr

/-- What one call of a job's `work()` does: the things it is seen to do, and
how the value it returns settles (a synchronous throw counts as `rejected`,
which is what it becomes inside the pipeline). -/
structure Work where
  notes : List String
  outcome : Outcome
  deriving DecidableEq, Repr

/-- A job definition `{ every, work }`. -/
structure JobDefinition where
  every : String
  work : Work
  deriving DecidableEq, Repr

/-- What the expression `this.jobs[name]` evaluates to.  `this.jobs` is the
object literal `{}`, so a name that was never assigned still reads as a
member of `Object.prototype` when it is one of that object's property names. -/
inductive JobsRead
  | definition (d : JobDefinition)
  | inherited
  | undefined
  deriving DecidableEq, Repr

/-- The property names every object literal inherits from `Object.prototype`. -/
def objectPrototypeKeys : List String :=
  ["constructor", "hasOwnProperty", "isPrototypeOf", "propertyIsEnumerable",
   "toLocaleString", "toString", "valueOf", "__proto__", "__defineGetter__",
   "__defineSetter__", "__lookupGetter__", "__lookupSetter__"]

/-- The read `jobs[name]`: an own property first, then the prototype. -/
def jobsGet (jobs : List (String × JobDefinition)) (name : String) : JobsRead :=
  match jobs.lookup name with
  | some d => .definition d
  | none => if name ∈ objectPrototypeKeys then .inherited else .undefined

/-- Truthiness of `this.jobs[jobName]`: objects and functions are truthy,
`undefined` is not. -/
def JobsRead.truthy : JobsRead → Bool
  | .definition _ => true
  | .inherited => true
  | .undefined => false

/-- The read `.every` on the value of `this.jobs[jobName]`; `none` is `undefined`. -/
def JobsRead.every : JobsRead → Option String
  | .definition d => some d.every
  | .inherited => none
  | .undefined => none

/-- Something user code (a middleware or a work function) is seen to do, plus
the two calls that the pipeline itself makes. -/
inductive Action
  | middleware (index : Nat) (name : String) (definition : JobsRead)
  | work (name : String)
  | note (label : String)
  deriving DecidableEq, Repr

/-- One run of asynchronous user code: what happened, in order, and how the
resulting promise ended. -/
structure Run where
  actions : List Action
  outcome : Outcome
  deriving DecidableEq, Repr

/-- A middleware `(jobName, jobDefinition, next) => ...`.  The third argument
is the run that calling `next()` performs; the result is the run of the
middleware as a whole. -/
abbrev Middleware := String → JobsRead → Run → Run

/-- Modelled from the spec: `compose` of the package `throwback`, which is not
part of the repository.  It chains the middleware around a terminal callback
in registration order, the first one outermost, and hands each the job name,
the job definition and its continuation.  `pos` counts the position of the
middleware being entered. -/
def composeFrom (pos : Nat) (done : String → JobsRead → Run) (name : String)
    (definition : JobsRead) : List Middleware → Run
  | [] => done name definition
  | m :: rest =>
    let r := m name definition (composeFrom (pos + 1) done name definition rest)
    { actions := .middleware pos name definition :: r.actions, outcome := r.outcome }

/-- Modelled from the spec: `compose(middleware)` applied to
`(name, definition, done)`. -/
def compose (middleware : List Middleware) (name : String) (definition : JobsRead)
    (done : String → JobsRead → Run) : Run :=
  composeFrom 0 done name definition middleware

/-! ## Events and the scheduler state -/

/-- The `PX` argument of the rescheduling command: `humanInterval(interval)`.
For a text interval it is a number of milliseconds; `ofUndefined` stands for
`humanInterval(undefined)`, whatever that call returns. -/
inductive Timeout
  | ms (n : Nat)
  | ofUndefined
  deriving DecidableEq, Repr

/-- The command `client.set(key, value, 'PX', px, 'NX')`. -/
structure SetCommand where
  key : String
  value : String
  px : Timeout
  deriving DecidableEq, Repr

/-- Everything the scheduler does to the outside world. -/
inductive Event
  | lock (resource : String) (ttl : Nat)
  | user (a : Action)
  | unlock (resource : String)
  | set (c : SetCommand)
  deriving DecidableEq, Repr

/-- The fields of a scheduler object that the methods read. -/
structure State where
  pfx : String
  ttl : Nat
  jobs : List (String × JobDefinition)
  qas : List Middleware

/-- `(this.connection && this.connection.db) || 0`, as a function of the value
of `this.connection`. -/
def dbNumberOf (thisConnection : Option Connection) : Nat :=
  match thisConnection with
  | none => 0
  | some c => c.db.getD 0

/-- The constructor's `DB_NUMBER`.  The expression reads `this.connection`, a
field of the object under construction that nothing has assigned (the
descriptor is the local `connection`), so it is read as `undefined`. -/
def DB_NUMBER (_options : Options) : Nat :=
  dbNumberOf none

/-- The channel name passed to `subscriber.subscribe`. -/
def channelOf (db : Nat) : String :=
  "__keyevent@" ++ toString db ++ "__:expired"

/-- The channel the constructor subscribes to. -/
def subscribedChannel (options : Options) : String :=
  channelOf (DB_NUMBER options)

/-- The constructor: defaults for `prefix` and `ttl`, empty registry, empty
middleware list. -/
def construct (options : Options) : State :=
  { pfx := options.pfx.getD JOB_PREFIX
    ttl := options.ttl.getD JOB_TTL
    jobs := []
    qas := [] }

/-- `getJobKey(name)`. -/
def getJobKey (b : State) (name : String) : String :=
  b.pfx ++ ":work:" ++ name

/-- `getLockKey(name)`. -/
def getLockKey (b : State) (name : String) : String :=
  b.pfx ++ ":lock:" ++ name

/-- `qa(fn)`: `this.qas.push(fn)`. -/
def qa (b : State) (fn : Middleware) : State :=
  { b with qas := b.qas ++ [fn] }

/-- The value of `humanInterval(interval)` as it is handed to the store. -/
def timeoutOf (humanInterval : String → Nat) : Option String → Timeout
  | some interval => .ms (humanInterval interval)
  | none => .ofUndefined

/-- `scheduleRun(name, interval)`: the one command it issues. -/
def scheduleRun (humanInterval : String → Nat) (b : State) (name : String)
    (interval : Option String) : SetCommand :=
  { key := getJobKey b name, value := name, px := timeoutOf humanInterval interval }

/-- The terminal callback of `doWork`: `(jobName, definition) => definition.work()`.
Without a definition, or with a value that has no `work`, the call throws, and
the pipeline turns the throw into a rejection. -/
def callWork (jobName : String) : JobsRead → Run
  | .definition d =>
    { actions := .work jobName :: d.work.notes.map .note, outcome := d.work.outcome }
  | .inherited => { actions := [], outcome := .rejected }
  | .undefined => { actions := [], outcome := .rejected }

/-- The result of `redlock.lock`: the promise resolves with a lock or rejects. -/
inductive LockResult
  | acquired
  | unavailable
  deriving DecidableEq, Repr

/-- The `response` of `doWork`: the composed pipeline applied to the job. -/
def response (b : State) (name : String) : Run :=
  compose b.qas name (jobsGet b.jobs name) callWork

/-- What `doWork` does once the lock promise has settled: in the success
callback the pipeline runs and `end` unlocks when `response` settles; the
failure callback returns `null`. -/
def afterLock (b : State) (name : String) : LockResult → List Event
  | .acquired =>
    let r := response b name
    r.actions.map .user ++
      (if r.outcome = .pending then [] else [.unlock (getLockKey b name)])
  | .unavailable => []

/-- How the promise built by `.then(onLocked, onFailed)` in `doWork` ends.
Both callbacks return normally, so it resolves either way. -/
def doWorkPromise (_b : State) (_name : String) : LockResult → Outcome
  | .acquired => .resolved
  | .unavailable => .resolved

/-- `doWork(name)`: the lock request it sends at once, and what follows when
the lock promise settles. -/
def doWork (b : State) (name : String) : Event × (LockResult → List Event) :=
  (.lock (getLockKey b name) b.ttl, afterLock b name)

/-- What handling one message leaves behind. -/
structure Handled where
  state : State
  events : List Event
  threw : Bool

/-- The subscriber's `'message'` handler.  The events are listed in the order
in which they happen: the lock request and the rescheduling command are sent
while the handler runs, the rest follows when the lock promise settles with
`lock`. -/
def onMessage (humanInterval : String → Nat) (b : State) (message : String)
    (lock : LockResult) : Handled :=
  if !startsWith message (b.pfx ++ ":work:") then
    { state := b, events := [], threw := false }
  else
    let jobName := jobNameOf message
    let work := doWork b jobName
    let entry := jobsGet b.jobs jobName
    let schedule :=
      if entry.truthy then [Event.set (scheduleRun humanInterval b jobName entry.every)]
      else []
    { state := b, events := work.1 :: schedule ++ work.2 lock, threw := false }

/-! ## The coordination store -/

/-- A stored value with the instant (in milliseconds) at which it expires. -/
structure Entry where
  value : String
  expiresAt : Nat
  deriving DecidableEq, Repr

/-- Modelled from the spec: the coordination store, which is not part of the
repository: a key-value store with millisecond expiry.  A key holds at most one
entry. -/
abbrev Store := List (String × Entry)

/-- The store's answer to a `SET ... NX`: `OK` when it wrote, `nil` when the
key was there already, an error for a command it cannot read. -/
inductive Reply
  | ok
  | nil
  | error
  deriving DecidableEq, Repr

/-- Modelled from the spec: the entry of `key` that is alive at instant `now`. -/
def Store.live (s : Store) (now : Nat) (key : String) : Option Entry :=
  match s.lookup key with
  | some e => if now < e.expiresAt then some e else none
  | none => none

/-- Modelled from the spec: `SET key value PX ms NX` at instant `now` writes
only when the key is absent, and then stores the value with the expiry
`now + ms`.  A `PX` argument that is not a number is refused. -/
def Store.exec (s : Store) (now : Nat) (c : SetCommand) : Store × Reply :=
  match c.px with
  | .ofUndefined => (s, .error)
  | .ms n =>
    match s.live now c.key with
    | some _ => (s, .nil)
    | none =>
      ((c.key, { value := c.value, expiresAt := now + n }) ::
        s.filter (fun p => p.1 ≠ c.key), .ok)

/-- `scheduleRun(name, interval)` called once at each of the given instants,
in that order, against one store: the final store and the replies. -/
def scheduleRuns (humanInterval : String → Nat) (b : State) (name interval : String) :
    Store → List Nat → Store × List Reply
  | s, [] => (s, [])
  | s, t :: ts =>
    let r := s.exec t (scheduleRun humanInterval b name (some interval))
    let rest := scheduleRuns humanInterval b name interval r.1 ts
    (rest.1, r.2 :: rest.2)

/-! ## Several instances racing for one lock -/

/-- Where an instance stands in handling one expiry notification: it has the
notification and its lock request is on its way, it holds the lock and runs
the pipeline, or it is done with the notification. -/
inductive Phase
  | notified
  | executing
  | finished
  deriving DecidableEq, Repr

/-- Instances that handle one expiry notification for one job.  `holder` is
the state of the lock service for the job's lock key. -/
structure Fleet where
  holder : Option Nat
  phases : List Phase
  log : List (Nat × Event)
  deriving DecidableEq, Repr

/-- Every one of `n` instances has received the notification; the lock is free. -/
def Fleet.start (n : Nat) : Fleet :=
  { holder := none, phases := List.replicate n .notified, log := [] }

/-- Modelled from the spec: the lock service, which is not part of the
repository: a request succeeds exactly when nobody holds the lock. -/
def lockService (holder : Option Nat) : LockResult :=
  if holder.isNone then .acquired else .unavailable

/-- One step of instance `i`, following `doWork`.  An instance that was
notified gets the answer to its lock request: with the lock it runs the
pipeline, without it it is done.  An instance that is executing, once its
`response` has settled, unlocks and is done. -/
def Fleet.step (bs : List State) (name : String) (f : Fleet) (i : Nat) : Fleet :=
  match bs.get? i, f.phases.get? i with
  | some b, some .notified =>
    match lockService f.holder with
    | .acquired =>
      { holder := some i
        phases := f.phases.set i .executing
        log := f.log ++ (response b name).actions.map (fun a => (i, Event.user a)) }
    | .unavailable => { f with phases := f.phases.set i .finished }
  | some b, some .executing =>
    if (response b name).outcome = .pending then f
    else
      { holder := none
        phases := f.phases.set i .finished
        log := f.log ++ [(i, Event.unlock (getLockKey b name))] }
  | _, _ => f

/-- A schedule: the instances in the order in which they take their steps. -/
def Fleet.run (bs : List State) (name : String) (f : Fleet) (schedule : List Nat) : Fleet :=
  schedule.foldl (Fleet.step bs name) f

/-- The instances that called `work()` for the job, once per call. -/
def Fleet.workers (f : Fleet) (name : String) : List Nat :=
  (f.log.filter (fun e => e.2 = Event.user (.work name))).map (fun e => e.1)

/-- The lock service and the phases agree: an instance holds the lock exactly
when it is executing. -/
def Fleet.Consistent (f : Fleet) : Prop :=
  ∀ i, f.holder = some i ↔ f.phases[i]? = some .executing

/-- The rescheduling commands among some events, in order. -/
def storeWrites : List Event → List SetCommand
  | [] => []
  | .set c :: rest => c :: storeWrites rest
  | _ :: rest => storeWrites rest

/-- The lock keys that some events unlock, in order. -/
def unlocks : List Event → List String
  | [] => []
  | .unlock k :: rest => k :: unlocks rest
  | _ :: rest => unlocks rest

/-- A middleware that notes `before`, calls `next()` once and waits for it,
then notes `after` and ends as `next()` did. -/
def around (before after : String) : Middleware := fun _ _ next =>
  if next.outcome = .pending then
    { actions := .note before :: next.actions, outcome := .pending }
  else
    { actions := .note before :: next.actions ++ [.note after], outcome := next.outcome }

/-! ## Lemmas on strings -/

theorem startsWith_append (p s : String) : startsWith (p ++ s) p = true := by
  simp [startsWith, String.data_append]

theorem split_ne_nil (sep : Char) (cs : List Char) : split sep cs ≠ [] := by
  cases cs with
  | nil => simp [split]
  | cons c cs =>
    by_cases h : c = sep
    · simp [split, h]
    · simp only [split, h, if_false]
      split <;> simp

theorem split_append_sep (sep : Char) (xs ys : List Char) :
    split sep (xs ++ sep :: ys) = split sep xs ++ split sep ys := by
  induction xs with
  | nil => simp [split]
  | cons c xs ih =>
    by_cases h : c = sep
    · simp [split, h, ih]
    · cases hx : split sep xs with
      | nil => exact absurd hx (split_ne_nil sep xs)
      | cons seg rest => simp [split, h, ih, hx]

theorem split_of_not_mem (sep : Char) (ys : List Char) (h : sep ∉ ys) :
    split sep ys = [ys] := by
  induction ys with
  | nil => simp [split]
  | cons c ys ih =>
    have hc : c ≠ sep := fun e => h (by simp [e])
    have hys : sep ∉ ys := fun m => h (List.mem_cons_of_mem _ m)
    simp [split, hc, ih hys]

theorem getLast?_split_append (sep : Char) (xs ys : List Char) :
    (split sep (xs ++ sep :: ys)).getLast? = (split sep ys).getLast? := by
  rw [split_append_sep]
  cases hy : split sep ys with
  | nil => exact absurd hy (split_ne_nil sep ys)
  | cons seg rest =>
    rw [List.getLast?_append]
    cases hl : (seg :: rest).getLast? with
    | none => simp at hl
    | some l => rfl

theorem getJobKey_data (b : State) (name : String) :
    (getJobKey b name).data = (b.pfx.data ++ [':', 'w', 'o', 'r', 'k']) ++ ':' :: name.data := by
  simp [getJobKey, String.data_append]

/-- The job name parsed from a wake key is what follows the last colon of the
name the key was made from. -/
theorem jobNameOf_getJobKey (b : State) (name : String) :
    jobNameOf (getJobKey b name) = String.mk (((split ':' name.data).getLast?).getD []) := by
  unfold jobNameOf
  rw [getJobKey_data, getLast?_split_append]

/-- The round trip for a job name without a colon: its wake key passes the
handler's filter and the name parsed from the key is the job name. -/
theorem roundTrip_of_no_colon (b : State) (name : String) (h : ':' ∉ name.data) :
    startsWith (getJobKey b name) (b.pfx ++ ":work:") = true ∧
      jobNameOf (getJobKey b name) = name := by
  refine ⟨startsWith_append _ _, ?_⟩
  rw [jobNameOf_getJobKey, split_of_not_mem _ _ h]
  rfl

/-! ## Keys and configuration -/

theorem getJobKey_ne_getLockKey (b : State) (name : String) :
    getJobKey b name ≠ getLockKey b name := by
  intro h
  have hd := congrArg String.data h
  simp [getJobKey, getLockKey, String.data_append] at hd

/-- C9: for every prefix and job name the wake key is `{prefix}:work:{name}`
and the lock key is `{prefix}:lock:{name}`; a scheduler constructed without a
prefix option has the prefix `bossman:job`, one constructed without a ttl
option has the lock timeout 2000, and the two keys of a job differ. -/
theorem C9_keys_and_defaults (pfx name : String) (ttl : Nat)
    (jobs : List (String × JobDefinition)) (qas : List Middleware)
    (connection : Option Connection) (pfxOption : Option String) (ttlOption : Option Nat) :
    getJobKey { pfx := pfx, ttl := ttl, jobs := jobs, qas := qas } name
        = pfx ++ ":work:" ++ name ∧
      getLockKey { pfx := pfx, ttl := ttl, jobs := jobs, qas := qas } name
        = pfx ++ ":lock:" ++ name ∧
      (construct { connection := connection, pfx := none, ttl := ttlOption }).pfx
        = "bossman:job" ∧
      (construct { connection := connection, pfx := pfxOption, ttl := none }).ttl = 2000 ∧
      getJobKey { pfx := pfx, ttl := ttl, jobs := jobs, qas := qas } name
        ≠ getLockKey { pfx := pfx, ttl := ttl, jobs := jobs, qas := qas } name :=
  ⟨rfl, rfl, rfl, rfl, getJobKey_ne_getLockKey _ _⟩

/-- Whatever the options, the constructor computes the database number 0. -/
theorem subscribedChannel_eq (options : Options) :
    subscribedChannel options = "__keyevent@0__:expired" := by
  simp [subscribedChannel, DB_NUMBER, dbNumberOf, channelOf]
  decide

/-- C8: for the connection descriptor `{ db: 3 }` the constructor subscribes to
the expiry channel of database 0, not to `__keyevent@3__:expired`, the channel
of the descriptor's database. -/
theorem C8_channel_ignores_db :
    subscribedChannel { connection := some { db := some 3 } } = "__keyevent@0__:expired" ∧
      subscribedChannel { connection := some { db := some 3 } } ≠ channelOf 3 := by
  decide

/-! ## The message handler -/

/-- C7: a message that does not start with `{prefix}:work:` makes the handler
do nothing: no lock request, no middleware or work call, no store command, the
registry as it was, no error. -/
theorem C7_foreign_message_ignored (humanInterval : String → Nat) (b : State)
    (message : String) (lock : LockResult)
    (h : startsWith message (b.pfx ++ ":work:") = false) :
    (onMessage humanInterval b message lock).events = [] ∧
      (onMessage humanInterval b message lock).state.jobs = b.jobs ∧
      (onMessage humanInterval b message lock).threw = false := by
  simp [onMessage, h]

theorem C7_foreign_message_ignored_witness :
    startsWith "other:job:work:cleanup" ((construct {}).pfx ++ ":work:") = false ∧
      (onMessage (fun _ => 1000) (construct {}) "other:job:work:cleanup" .acquired).events = [] :=
  ⟨by decide,
    (C7_foreign_message_ignored (fun _ => 1000) (construct {}) "other:job:work:cleanup"
      .acquired (by decide)).1⟩

/-- What the handler does with a message of its own namespace. -/
theorem onMessage_events (humanInterval : String → Nat) (b : State) (message : String)
    (lock : LockResult) (h : startsWith message (b.pfx ++ ":work:") = true) :
    (onMessage humanInterval b message lock).events =
      Event.lock (getLockKey b (jobNameOf message)) b.ttl ::
        ((if (jobsGet b.jobs (jobNameOf message)).truthy then
            [Event.set (scheduleRun humanInterval b (jobNameOf message)
              (jobsGet b.jobs (jobNameOf message)).every)]
          else []) ++ afterLock b (jobNameOf message) lock) := by
  simp [onMessage, h, doWork]

theorem storeWrites_append (xs ys : List Event) :
    storeWrites (xs ++ ys) = storeWrites xs ++ storeWrites ys := by
  induction xs with
  | nil => rfl
  | cons e xs ih => cases e <;> simp [storeWrites, ih]

theorem storeWrites_user (as : List Action) : storeWrites (as.map Event.user) = [] := by
  induction as with
  | nil => rfl
  | cons a as ih => simpa [storeWrites] using ih

theorem unlocks_append (xs ys : List Event) :
    unlocks (xs ++ ys) = unlocks xs ++ unlocks ys := by
  induction xs with
  | nil => rfl
  | cons e xs ih => cases e <;> simp [unlocks, ih]

theorem unlocks_user (as : List Action) : unlocks (as.map Event.user) = [] := by
  induction as with
  | nil => rfl
  | cons a as ih => simpa [unlocks] using ih

theorem storeWrites_afterLock (b : State) (name : String) (lock : LockResult) :
    storeWrites (afterLock b name lock) = [] := by
  cases lock with
  | unavailable => rfl
  | acquired =>
    simp only [afterLock, storeWrites_append, storeWrites_user]
    split <;> rfl

/-- The store commands of the handler are the same for both lock results. -/
theorem onMessage_storeWrites (humanInterval : String → Nat) (b : State) (message : String)
    (lock : LockResult) (h : startsWith message (b.pfx ++ ":work:") = true) :
    storeWrites (onMessage humanInterval b message lock).events =
      if (jobsGet b.jobs (jobNameOf message)).truthy then
        [scheduleRun humanInterval b (jobNameOf message)
          (jobsGet b.jobs (jobNameOf message)).every]
      else [] := by
  rw [onMessage_events humanInterval b message lock h]
  simp only [storeWrites, storeWrites_append, storeWrites_afterLock, List.append_nil]
  split <;> rfl

/-- For a registered job the handler issues the rescheduling command exactly
once, with the job's interval, whatever the lock result. -/
theorem onMessage_registered (humanInterval : String → Nat) (b : State) (message : String)
    (lock : LockResult) (d : JobDefinition)
    (h : startsWith message (b.pfx ++ ":work:") = true)
    (hd : b.jobs.lookup (jobNameOf message) = some d) :
    storeWrites (onMessage humanInterval b message lock).events =
      [{ key := b.pfx ++ ":work:" ++ jobNameOf message, value := jobNameOf message,
         px := .ms (humanInterval d.every) }] := by
  rw [onMessage_storeWrites humanInterval b message lock h]
  simp [jobsGet, hd, JobsRead.truthy, JobsRead.every, scheduleRun, timeoutOf, getJobKey]

/-- For a name that is neither registered nor a property name of
`Object.prototype` the handler issues no store command, whatever the lock
result. -/
theorem onMessage_unknown (humanInterval : String → Nat) (b : State) (message : String)
    (lock : LockResult)
    (h : startsWith message (b.pfx ++ ":work:") = true)
    (hd : b.jobs.lookup (jobNameOf message) = none)
    (hp : jobNameOf message ∉ objectPrototypeKeys) :
    storeWrites (onMessage humanInterval b message lock).events = [] := by
  rw [onMessage_storeWrites humanInterval b message lock h]
  simp [jobsGet, hd, hp, JobsRead.truthy]

/-- C1: with an empty registry, the expiry message `bossman:job:work:constructor`
passes the filter, the job name `constructor` is absent from the registry, and
the handler still issues a rescheduling command for it, for either lock result. -/
theorem C1_unregistered_name_rescheduled :
    startsWith "bossman:job:work:constructor" ((construct {}).pfx ++ ":work:") = true ∧
      jobNameOf "bossman:job:work:constructor" = "constructor" ∧
      (construct {}).jobs.lookup "constructor" = none ∧
      ∀ lock : LockResult,
        storeWrites
            (onMessage (fun _ => 1000) (construct {}) "bossman:job:work:constructor" lock).events
          = [{ key := "bossman:job:work:constructor", value := "constructor",
               px := .ofUndefined }] := by
  refine ⟨by decide, by decide, by decide, ?_⟩
  intro lock
  cases lock <;> decide

/-- C10: for the job name `a:b` the wake key `bossman:job:work:a:b` passes the
handler's filter, but the name the handler parses out of it is `b`: the lock it
requests is that of `b`, and the registered job `a:b` is not rescheduled. -/
theorem C10_colon_in_job_name :
    startsWith (getJobKey (construct {}) "a:b") ((construct {}).pfx ++ ":work:") = true ∧
      jobNameOf (getJobKey (construct {}) "a:b") = "b" ∧
      ∀ lock : LockResult,
        (onMessage (fun _ => 1000)
            { construct {} with
              jobs := [("a:b", { every := "1 second", work := { notes := [], outcome := .resolved } })] }
            "bossman:job:work:a:b" lock).events
          = Event.lock "bossman:job:lock:b" 2000 ::
              (match lock with
               | .acquired => [Event.unlock "bossman:job:lock:b"]
               | .unavailable => []) := by
  refine ⟨by decide, by decide, ?_⟩
  intro lock
  cases lock <;> decide

/-! ## `doWork` -/

/-- C2: when the lock request of `doWork(name)` fails nothing follows: no
middleware call, no work call, no unlock, and the failure is swallowed (the
promise `doWork` builds resolves); a middleware or work call only ever follows
a lock that was acquired. -/
theorem C2_lock_failure_skips_work (b : State) (name : String) :
    (doWork b name).1 = Event.lock (b.pfx ++ ":lock:" ++ name) b.ttl ∧
      (doWork b name).2 .unavailable = [] ∧
      doWorkPromise b name .unavailable = .resolved ∧
      ∀ (lock : LockResult) (a : Action),
        Event.user a ∈ (doWork b name).2 lock → lock = .acquired := by
  refine ⟨rfl, rfl, rfl, ?_⟩
  intro lock a h
  cases lock with
  | acquired => rfl
  | unavailable => simp [doWork, afterLock] at h

/-- With no middleware and no definition under the name, the pipeline rejects:
the terminal callback reads `work` of a value that has none. -/
theorem response_missing (b : State) (name : String) (hq : b.qas = [])
    (hd : ∀ d, jobsGet b.jobs name ≠ .definition d) :
    response b name = { actions := [], outcome := .rejected } := by
  unfold response compose
  rw [hq]
  cases hj : jobsGet b.jobs name with
  | definition d => exact absurd hj (hd d)
  | inherited => rfl
  | undefined => rfl

/-- C3: after a lock was acquired, once the middleware-wrapped work invocation
has settled (resolved or rejected, a missing job definition included), the
events of `doWork` are those of the pipeline followed by one unlock of the
job's lock key, and that is the only unlock. -/
theorem C3_unlock_once_after_settling (b : State) (name : String)
    (h : (response b name).outcome = .resolved ∨ (response b name).outcome = .rejected) :
    (doWork b name).2 .acquired =
        (response b name).actions.map Event.user ++ [Event.unlock (getLockKey b name)] ∧
      unlocks ((doWork b name).2 .acquired) = [getLockKey b name] := by
  have hp : (response b name).outcome ≠ .pending := by
    rcases h with h | h <;> simp [h]
  have he : (doWork b name).2 .acquired =
      (response b name).actions.map Event.user ++ [Event.unlock (getLockKey b name)] := by
    simp [doWork, afterLock, hp]
  refine ⟨he, ?_⟩
  rw [he, unlocks_append, unlocks_user]
  rfl

theorem C3_unlock_once_after_settling_witness :
    (response (construct {}) "cleanup").outcome = .rejected ∧
      (doWork (construct {}) "cleanup").2 .acquired = [Event.unlock "bossman:job:lock:cleanup"] :=
  ⟨by decide,
    (C3_unlock_once_after_settling (construct {}) "cleanup" (Or.inr (by decide))).1⟩

/-- C5: `qa(fn)` appends `fn` to the middleware list and leaves the earlier
entries as they were; with two middleware registered in the order M1, M2
around a work function that settles, the pipeline of `doWork` calls M1 then M2
with the job name and the job definition, and the order seen is M1-before,
M2-before, the work, M2-after, M1-after. -/
theorem C5_middleware_order (b0 : State) (fn : Middleware) (b : State) (name : String)
    (d : JobDefinition) (before1 after1 before2 after2 : String)
    (hq : b.qas = []) (hj : b.jobs.lookup name = some d) (hs : d.work.outcome ≠ .pending) :
    (qa b0 fn).qas = b0.qas ++ [fn] ∧
      (qa b0 fn).jobs = b0.jobs ∧
      response (qa (qa b (around before1 after1)) (around before2 after2)) name =
        { actions :=
            [.middleware 0 name (.definition d), .note before1,
             .middleware 1 name (.definition d), .note before2, .work name] ++
              d.work.notes.map Action.note ++ [.note after2, .note after1]
          outcome := d.work.outcome } := by
  refine ⟨rfl, rfl, ?_⟩
  simp [response, compose, composeFrom, qa, hq, jobsGet, hj, around, callWork, hs]

theorem C5_middleware_order_witness :
    response
        (qa (qa { construct {} with
                  jobs := [("cleanup", { every := "5 minutes",
                                         work := { notes := ["W"], outcome := .resolved } })] }
              (around "M1-before" "M1-after")) (around "M2-before" "M2-after")) "cleanup" =
      { actions :=
          [.middleware 0 "cleanup"
             (.definition { every := "5 minutes", work := { notes := ["W"], outcome := .resolved } }),
           .note "M1-before",
           .middleware 1 "cleanup"
             (.definition { every := "5 minutes", work := { notes := ["W"], outcome := .resolved } }),
           .note "M2-before", .work "cleanup", .note "W", .note "M2-after", .note "M1-after"]
        outcome := .resolved } :=
  (C5_middleware_order (construct {}) (around "x" "y")
    { construct {} with
      jobs := [("cleanup", { every := "5 minutes",
                             work := { notes := ["W"], outcome := .resolved } })] }
    "cleanup" { every := "5 minutes", work := { notes := ["W"], outcome := .resolved } }
    "M1-before" "M1-after" "M2-before" "M2-after" rfl (by decide) (by decide)).2.2

/-! ## Rescheduling against the store -/

theorem exec_of_live (humanInterval : String → Nat) (b : State) (name interval : String)
    (s : Store) (now : Nat) (e : Entry) (h : s.live now (getJobKey b name) = some e) :
    s.exec now (scheduleRun humanInterval b name (some interval)) = (s, .nil) := by
  simp [Store.exec, scheduleRun, timeoutOf, h]

theorem exec_of_absent (humanInterval : String → Nat) (b : State) (name interval : String)
    (s : Store) (now : Nat) (h : s.live now (getJobKey b name) = none) :
    s.exec now (scheduleRun humanInterval b name (some interval)) =
      ((getJobKey b name, { value := name, expiresAt := now + humanInterval interval }) ::
        s.filter (fun p => p.1 ≠ getJobKey b name), .ok) := by
  simp [Store.exec, scheduleRun, timeoutOf, h]

theorem scheduleRuns_of_live (humanInterval : String → Nat) (b : State)
    (name interval : String) (s : Store) (ts : List Nat)
    (h : ∀ u ∈ ts, (s.live u (getJobKey b name)).isSome = true) :
    scheduleRuns humanInterval b name interval s ts = (s, List.replicate ts.length .nil) := by
  induction ts with
  | nil => rfl
  | cons t ts ih =>
    obtain ⟨e, he⟩ := Option.isSome_iff_exists.mp (h t (List.mem_cons_self _ _))
    have ht := ih (fun u hu => h u (List.mem_cons_of_mem _ hu))
    simp [scheduleRuns, exec_of_live humanInterval b name interval s t e he, ht,
      List.replicate_succ]

/-- C6: over a store in which `SET key value PX ms NX` writes only when the
key is absent, `scheduleRun(name, interval)` issued at an instant `t` and then
again at instants `ts` at which the wake key is still alive leaves the store
as the first call left it: the later calls are all answered `nil`, the first
call writes exactly when the key was absent (the value is the job name, the
expiry `t` plus the interval), a key that was alive keeps its entry, and no
call is answered with an error. -/
theorem C6_reschedule_idempotent (humanInterval : String → Nat) (b : State)
    (name interval : String) (s : Store) (t : Nat) (ts : List Nat)
    (h : ∀ u ∈ ts,
      ((s.exec t (scheduleRun humanInterval b name (some interval))).1.live u
        (b.pfx ++ ":work:" ++ name)).isSome = true) :
    scheduleRuns humanInterval b name interval s (t :: ts) =
        ((s.exec t (scheduleRun humanInterval b name (some interval))).1,
          (s.exec t (scheduleRun humanInterval b name (some interval))).2 ::
            List.replicate ts.length .nil) ∧
      (scheduleRuns humanInterval b name interval s (t :: ts)).1 =
        (scheduleRuns humanInterval b name interval s [t]).1 ∧
      (s.live t (b.pfx ++ ":work:" ++ name) = none →
        s.exec t (scheduleRun humanInterval b name (some interval)) =
          ((b.pfx ++ ":work:" ++ name,
              { value := name, expiresAt := t + humanInterval interval }) ::
            s.filter (fun p => p.1 ≠ b.pfx ++ ":work:" ++ name), .ok)) ∧
      (∀ e, s.live t (b.pfx ++ ":work:" ++ name) = some e →
        s.exec t (scheduleRun humanInterval b name (some interval)) = (s, .nil)) ∧
      Reply.error ∉ (scheduleRuns humanInterval b name interval s (t :: ts)).2 := by
  have hfirst : (s.exec t (scheduleRun humanInterval b name (some interval))).2 ≠ .error := by
    cases hl : s.live t (getJobKey b name) with
    | none => rw [exec_of_absent humanInterval b name interval s t hl]; simp
    | some e => rw [exec_of_live humanInterval b name interval s t e hl]; simp
  have hrest := scheduleRuns_of_live humanInterval b name interval
    (s.exec t (scheduleRun humanInterval b name (some interval))).1 ts h
  have hall : scheduleRuns humanInterval b name interval s (t :: ts) =
      ((s.exec t (scheduleRun humanInterval b name (some interval))).1,
        (s.exec t (scheduleRun humanInterval b name (some interval))).2 ::
          List.replicate ts.length .nil) := by
    simp only [scheduleRuns]
    rw [hrest]
  refine ⟨hall, ?_, ?_, ?_, ?_⟩
  · rw [hall]
    rfl
  · intro hl
    exact exec_of_absent humanInterval b name interval s t hl
  · intro e hl
    exact exec_of_live humanInterval b name interval s t e hl
  · rw [hall]
    intro hm
    rcases List.mem_cons.mp hm with hm | hm
    · exact hfirst hm.symm
    · exact absurd (List.eq_of_mem_replicate hm) (by decide)

theorem C6_reschedule_idempotent_witness :
    scheduleRuns (fun _ => 300000) (construct {}) "cleanup" "5 minutes" [] [10, 20, 30] =
      ([("bossman:job:work:cleanup", { value := "cleanup", expiresAt := 300010 })],
        [.ok, .nil, .nil]) :=
  (C6_reschedule_idempotent (fun _ => 300000) (construct {}) "cleanup" "5 minutes" []
    10 [20, 30] (by decide)).1

/-! ## Several instances and one lock -/

theorem Fleet.start_consistent (n : Nat) : (Fleet.start n).Consistent := by
  intro i
  simp [Fleet.start, List.getElem?_replicate]

theorem Fleet.step_consistent (bs : List State) (name : String) (f : Fleet) (i : Nat)
    (h : f.Consistent) : (Fleet.step bs name f i).Consistent := by
  unfold Fleet.step
  split
  · next b hb hp =>
    have hp' : f.phases[i]? = some .notified := by simpa using hp
    have hlt : i < f.phases.length := by
      by_contra hge
      rw [List.getElem?_eq_none (Nat.le_of_not_lt hge)] at hp'
      exact absurd hp' (by simp)
    cases hh : f.holder with
    | none =>
      simp only [lockService, hh, Option.isNone_none, if_true]
      intro j
      by_cases hij : i = j
      · subst hij
        simp [List.getElem?_set, hlt]
      · have hj := h j
        rw [hh] at hj
        have hne : f.phases[j]? ≠ some .executing := fun e => by simpa using hj.mpr e
        simp [List.getElem?_set, hij, hne]
    | some k =>
      simp only [lockService, hh, Option.isNone_some, Bool.false_eq_true, if_false]
      intro j
      by_cases hij : i = j
      · subst hij
        have hi := h i
        rw [hp', hh] at hi
        have hki : k ≠ i := fun e => by simp [e] at hi
        simp [List.getElem?_set, hlt, hh, hki]
      · have hj := h j
        rw [hh] at hj
        simpa [List.getElem?_set, hij, hh] using hj
  · next b hb hp =>
    have hp' : f.phases[i]? = some .executing := by simpa using hp
    have hlt : i < f.phases.length := by
      by_contra hge
      rw [List.getElem?_eq_none (Nat.le_of_not_lt hge)] at hp'
      exact absurd hp' (by simp)
    have hi : f.holder = some i := (h i).mpr hp'
    split
    · exact h
    · intro j
      by_cases hij : i = j
      · subst hij
        simp [List.getElem?_set, hlt]
      · have hj := h j
        rw [hi] at hj
        have hne : f.phases[j]? ≠ some .executing := fun e => by
          have := hj.mpr e
          simp at this
          exact hij this
        simp [List.getElem?_set, hij, hne]
  · exact h

/-- Mutual exclusion, for every number of instances and every schedule: at any
instant at most one instance is executing with the lock. -/
theorem Fleet.run_exclusive (bs : List State) (name : String) (n : Nat) (schedule : List Nat)
    (i j : Nat)
    (hi : (Fleet.run bs name (Fleet.start n) schedule).phases[i]? = some .executing)
    (hj : (Fleet.run bs name (Fleet.start n) schedule).phases[j]? = some .executing) :
    i = j := by
  have hc : ∀ (sched : List Nat) (f : Fleet), f.Consistent →
      (Fleet.run bs name f sched).Consistent := by
    intro sched
    induction sched with
    | nil => intro f hf; exact hf
    | cons k sched ih =>
      intro f hf
      exact ih _ (Fleet.step_consistent bs name f k hf)
  have h := hc schedule _ (Fleet.start_consistent n)
  have h1 := (h i).mpr hi
  have h2 := (h j).mpr hj
  rw [h1] at h2
  exact Option.some.inj h2

/-- An instance that finds the lock free logs, over its two steps, what
`doWork` does after an acquired lock. -/
theorem Fleet.step_step_log (bs : List State) (name : String) (f : Fleet) (i : Nat) (b : State)
    (hb : bs.get? i = some b) (hp : f.phases.get? i = some .notified) (hh : f.holder = none) :
    (Fleet.step bs name (Fleet.step bs name f i) i).log =
      f.log ++ (afterLock b name .acquired).map (fun e => (i, e)) := by
  have hb' : bs[i]? = some b := by simpa using hb
  have hp' : f.phases[i]? = some .notified := by simpa using hp
  have hlt : i < f.phases.length := by
    by_contra hge
    rw [List.getElem?_eq_none (Nat.le_of_not_lt hge)] at hp'
    exact absurd hp' (by simp)
  have h1 : Fleet.step bs name f i =
      { holder := some i
        phases := f.phases.set i .executing
        log := f.log ++ (response b name).actions.map (fun a => (i, Event.user a)) } := by
    simp [Fleet.step, hb', hp', hh, lockService]
  rw [h1]
  by_cases hs : (response b name).outcome = .pending
  · simp [Fleet.step, hb', hlt, hs, afterLock, List.getElem?_set]
  · simp [Fleet.step, hb', hlt, hs, afterLock, List.getElem?_set]

/-- An instance that finds the lock taken logs nothing, as `doWork` does after
a failed lock. -/
theorem Fleet.step_log_of_held (bs : List State) (name : String) (f : Fleet) (i k : Nat)
    (b : State) (hb : bs.get? i = some b) (hp : f.phases.get? i = some .notified)
    (hh : f.holder = some k) :
    (Fleet.step bs name f i).log =
      f.log ++ (afterLock b name .unavailable).map (fun e => (i, e)) := by
  have hb' : bs[i]? = some b := by simpa using hb
  have hp' : f.phases[i]? = some .notified := by simpa using hp
  simp [Fleet.step, hb', hp', hh, lockService, afterLock]

/-- C4: two instances with the job `cleanup` registered handle the same expiry
notification; instance 0 gets the lock, calls `work()` and unlocks before the
lock request of instance 1 is answered.  Instance 1 then gets the lock as well
and calls `work()` again: the work runs twice for one expiry event, although
the lock never had two holders. -/
theorem C4_both_instances_work :
    (Fleet.run
        [{ construct {} with
           jobs := [("cleanup", { every := "5 minutes",
                                  work := { notes := [], outcome := .resolved } })] },
         { construct {} with
           jobs := [("cleanup", { every := "5 minutes",
                                  work := { notes := [], outcome := .resolved } })] }]
        "cleanup" (Fleet.start 2) [0, 0, 1, 1]).log =
      [(0, Event.user (.work "cleanup")), (0, Event.unlock "bossman:job:lock:cleanup"),
       (1, Event.user (.work "cleanup")), (1, Event.unlock "bossman:job:lock:cleanup")] ∧
    (Fleet.run
        [{ construct {} with
           jobs := [("cleanup", { every := "5 minutes",
                                  work := { notes := [], outcome := .resolved } })] },
         { construct {} with
           jobs := [("cleanup", { every := "5 minutes",
                                  work := { notes := [], outcome := .resolved } })] }]
        "cleanup" (Fleet.start 2) [0, 0, 1, 1]).workers "cleanup" = [0, 1] := by
  decide

end Bossman
